import Mathlib

/-!
Verification of the feature-engineering and scoring-orchestration layer of the
AI real-estate platform: min-max normalisation, city extraction, the candidate
filter and round-robin fusion of the recommendation service, the two retry
loops, the retrain trigger, and the price-prediction feature construction.
Numeric JS values are embedded as rationals, JS timestamps as integers, and
absent/null JS values as Option; each definition is a direct translation of
the function it names in the service sources.
-/

set_option maxHeartbeats 1000000

namespace AiRealEstate

/-- Character-level split on a separator, the structural rendering of JS
String.prototype.split with a one-character separator. -/
def splitChar (sep : Char) : List Char → List (List Char)
  | [] => [[]]
  | c :: cs =>
    match splitChar sep cs with
    | [] => [[]]
    | g :: gs => if c = sep then [] :: g :: gs else (c :: g) :: gs

/-- JS String.prototype.trim over the character list: whitespace stripped
from both ends. -/
def trimChars (cs : List Char) : List Char :=
  ((cs.dropWhile Char.isWhitespace).reverse.dropWhile Char.isWhitespace).reverse

/-- JS String.prototype.toLowerCase, for the ASCII strings these services
compare. -/
def jsToLower (s : String) : String :=
  String.mk (s.data.map Char.toLower)

/-- Does the pattern occur at the head of the character list. -/
def startsWithChars : List Char → List Char → Bool
  | [], _ => true
  | _ :: _, [] => false
  | p :: ps, c :: cs => p = c && startsWithChars ps cs

/-- Does the pattern occur anywhere in the character list. -/
def containsChars (pat : List Char) : List Char → Bool
  | [] => startsWithChars pat []
  | c :: cs => startsWithChars pat (c :: cs) || containsChars pat cs

/-- The substring tests of callAiService's catch block (its regular
expressions applied to fixed literal patterns). -/
def strContains (s pat : String) : Bool :=
  containsChars pat.data s.data

/-- Min-max normalisation, from priceEstimation.service.js normalize: empty
input yields empty output, a constant sequence maps to all 0.5, otherwise each
value is scaled to (v - min) / (max - min). -/
def normalize (values : List ℚ) : List ℚ :=
  match values with
  | [] => []
  | v :: vs =>
    let mn := (v :: vs).foldl min v
    let mx := (v :: vs).foldl max v
    if mx = mn then (v :: vs).map (fun _ => (1 : ℚ) / 2)
    else (v :: vs).map (fun x => (x - mn) / (mx - mn))

/-- Min-max normalisation from recommendation.service.js normalize. That copy
has no explicit empty-input guard: on [] the JS Math.min/Math.max produce
+Infinity and -Infinity, which are unequal, and the final map over the empty
array returns []; the embedding reflects that observable behaviour by the
empty match arm, and is otherwise the same computation. -/
def normalizeRec (values : List ℚ) : List ℚ :=
  match values with
  | [] => []
  | v :: vs =>
    let mn := (v :: vs).foldl min v
    let mx := (v :: vs).foldl max v
    if mx = mn then (v :: vs).map (fun _ => (1 : ℚ) / 2)
    else (v :: vs).map (fun x => (x - mn) / (mx - mn))

/-- The comma-split, trimmed, empties-dropped address pieces shared by both
extractCity copies. -/
def cityParts (address : String) : List String :=
  (((splitChar ',' address.data).map trimChars).map String.mk).filter (fun s => s != "")

/-- City extraction from priceEstimation.service.js extractCity: a missing or
null address (the none case) gives "unknown"; with at least two pieces the
second-to-last is taken, with exactly one that piece, with none "unknown". -/
def extractCity (address : Option String) : String :=
  match address with
  | none => "unknown"
  | some a =>
    match cityParts a with
    | [] => "unknown"
    | [p] => p
    | p :: q :: rest => ((p :: q :: rest).getD ((p :: q :: rest).length - 2) "")

/-- City extraction from recommendation.service.js extractCity: the same
splitting; with two or more pieces JS evaluates parts[length-2] and falls back
to the last piece when the former is falsy, which cannot happen after empty
pieces were filtered out. -/
def extractCityRec (address : Option String) : String :=
  match address with
  | none => "unknown"
  | some a =>
    match cityParts a with
    | [] => "unknown"
    | [p] => p
    | p :: q :: rest =>
      let c := (p :: q :: rest).getD ((p :: q :: rest).length - 2) ""
      if c = "" then (p :: q :: rest).getD ((p :: q :: rest).length - 1) "" else c

/-- The listing fields the recommendation filter and controller consume, from
the records recommendation.service.js receives. A price field that is absent
or null behaves as 0 in every comparison the code makes, so prices are plain
rationals with 0 standing for absent; createdAt is a millisecond timestamp. -/
structure Listing where
  _id : String
  regularPrice : ℚ
  discountPrice : ℚ
  createdAt : Int
deriving DecidableEq, Repr

/-- Effective price as computed inside processSourceList: discountPrice when
strictly positive, else regularPrice. -/
def effectivePrice (l : Listing) : ℚ :=
  if 0 < l.discountPrice then l.discountPrice else l.regularPrice

/-- A scoring-service candidate as normalised by callAiService: an id and an
optional similarity score (none when the service returned bare ids). -/
structure Candidate where
  id : String
  score : Option ℚ
deriving DecidableEq, Repr

/-- The JS test rec.score < 0.85 of processSourceList: a null score coerces
to 0 and is therefore below the bar. -/
def scoreBelow (s : Option ℚ) : Bool :=
  match s with
  | none => true
  | some v => if v < (85 : ℚ) / 100 then true else false

/-- One pass of the candidate filter inside processSourceList: the candidate
must resolve to a catalog listing; then the hard price constraint (applied
only when both effective prices are positive), the similarity threshold, and
the already-interacted exclusion are checked in the order of the source. -/
def keepCandidate (listings : List Listing) (interactionListing : Listing)
    (userInteractionSet : List String) (c : Candidate) : Bool :=
  match listings.find? (fun l => l._id == c.id) with
  | none => false
  | some recListing =>
    let intPrice := effectivePrice interactionListing
    let recPrice := effectivePrice recListing
    if 0 < intPrice ∧ 0 < recPrice ∧ (recPrice / intPrice < 1 / 2 ∨ 2 < recPrice / intPrice)
    then false
    else if scoreBelow c.score then false
    else if userInteractionSet.contains c.id then false
    else true

/-- The surviving candidates of one interaction, in service order (the
validRecs accumulation of processSourceList). -/
def validRecs (listings : List Listing) (interactionListing : Listing)
    (userInteractionSet : List String) (recs : List Candidate) : List Candidate :=
  recs.filter (keepCandidate listings interactionListing userInteractionSet)

/-- Advance one group iterator past already-seen ids to its first unseen
candidate, as the inner while loop over gen.next() in the round-robin merge of
recommend does; none when the iterator exhausts first. -/
def takeFirstUnseen (seen : List String) : List Candidate → Option (Candidate × List Candidate)
  | [] => none
  | c :: rest => if seen.contains c.id then takeFirstUnseen seen rest else some (c, rest)

/-- One round of the round-robin merge of recommend: visit each surviving
group in order, emit its first unseen candidate and keep its remainder,
dropping groups that exhaust; the seen set grows within the round exactly as
seenIds does. Returns (candidates emitted this round, updated seen set,
surviving groups in order). -/
def roundStep (seen : List String) : List (List Candidate) → List Candidate × List String × List (List Candidate)
  | [] => ([], seen, [])
  | g :: gs =>
    match takeFirstUnseen seen g with
    | none => roundStep seen gs
    | some (c, rest) =>
      let t := roundStep (c.id :: seen) gs
      (c :: t.1, t.2.1, rest :: t.2.2)

/-- Termination measure for the merge loop: total number of pending
candidates plus the number of live groups; each round strictly decreases it
while groups remain. -/
def gensMeasure (gens : List (List Candidate)) : Nat :=
  (gens.map List.length).sum + gens.length

/-- The while loop of the round-robin merge, with an explicit round budget.
A budget of gensMeasure gens always suffices (each round strictly shrinks
that measure), so roundRobinMerge below is the source loop run until all
groups are exhausted. -/
def mergeAux : Nat → List String → List (List Candidate) → List Candidate
  | 0, _, _ => []
  | _ + 1, _, [] => []
  | fuel + 1, seen, g :: gs =>
    let t := roundStep seen (g :: gs)
    t.1 ++ mergeAux fuel t.2.1 t.2.2

/-- The round-robin merge of the collected per-interaction candidate groups
(the activeGenerators while loop in recommend), starting from an empty seen
set. -/
def roundRobinMerge (gens : List (List Candidate)) : List Candidate :=
  mergeAux (gensMeasure gens) [] gens

/-- Steps 3 and 4 of recommend: round-robin merge the collected groups and,
when anything was merged, return the first topN of it (allRecs.slice(0,
topN)); none models falling through to the lastSearch and cold-start
branches. -/
def fuseTopN (gens : List (List Candidate)) (topN : Nat) : Option (List Candidate) :=
  let allRecs := roundRobinMerge gens
  if allRecs.isEmpty then none else some (allRecs.take topN)

/-- The three candidate groups of the documented merge example: A = [1,2,3],
B = [4,5], C = [6], ids rendered as strings as the service does. -/
def exampleGroups : List (List Candidate) :=
  [[⟨"1", some 1⟩, ⟨"2", some 1⟩, ⟨"3", some 1⟩],
   [⟨"4", some 1⟩, ⟨"5", some 1⟩],
   [⟨"6", some 1⟩]]

/-- A visitor's last search as the controller parses it from the lastSearch
query parameter. -/
structure LastSearch where
  budget : Option ℚ
  city : Option String
  bedrooms : Option ℚ
  areaMin : Option ℚ
  areaMax : Option ℚ
deriving DecidableEq, Repr

/-- Insertion of one listing into a createdAt-descending list, for the
controller's error fallback sort. -/
def insertByCreatedDesc (l : Listing) : List Listing → List Listing
  | [] => [l]
  | x :: xs => if x.createdAt ≤ l.createdAt then l :: x :: xs else x :: insertByCreatedDesc l xs

/-- The controller's error fallback ordering: listings sorted by createdAt
descending (sort((a, b) => new Date(b.createdAt) - new Date(a.createdAt))). -/
def sortByCreatedDesc (ls : List Listing) : List Listing :=
  ls.foldr insertByCreatedDesc []

/-- The getRecommendations controller of the recommendation route, at the
level the no-signal policy needs: an empty catalog short-circuits to an empty
list; then a visitor with empty favorites, empty recently-viewed and no last
search receives an empty list before the recommendation service is consulted;
otherwise the service outcome (abstracted as serviceResult, since the claims
quantify over it) is mapped back to catalog listings, or on a service error
the topN most recent listings are returned. -/
def getRecommendations (allListings : List Listing) (favorites recentlyViewed : List String)
    (lastSearch : Option LastSearch) (topN : Nat)
    (serviceResult : Except String (List Candidate)) : List Listing :=
  if allListings.isEmpty then []
  else if favorites.isEmpty && recentlyViewed.isEmpty && lastSearch.isNone then []
  else
    match serviceResult with
    | Except.error _ => (sortByCreatedDesc allListings).take topN
    | Except.ok results =>
      results.filterMap (fun c => allListings.find? (fun l => l._id == c.id))

/-- A JS Error as the retry loops observe it: its name and message. The
service argument of each retry model maps a 0-based attempt index to the
outcome of that attempt's try block (fetch, status checks and, for
callAiService, payload decoding). -/
structure JsError where
  name : String
  message : String
deriving DecidableEq, Repr

deriving instance DecidableEq for Except

/-- The observable outcome of one run of a retry loop: the final result (ok
payload or thrown error message), the number of attempts made, and the
backoff sleeps performed, in milliseconds and in order. -/
structure RetryTrace (α : Type) where
  result : Except String α
  attempts : Nat
  sleeps : List Nat
deriving DecidableEq, Repr

/-- The retriable test of callAiService's catch block: an AbortError, a
message matching /timeout/i, or an ECONNRESET / ECONNREFUSED message. -/
def retriableAiError (e : JsError) : Bool :=
  e.name == "AbortError" || strContains (jsToLower e.message) "timeout" ||
    strContains e.message "ECONNRESET" || strContains e.message "ECONNREFUSED"

/-- The while loop of callAiService's retry section: totalAttempts is
AI_REQUEST_RETRIES + 1; the remaining counter plays the loop guard attempt <=
AI_REQUEST_RETRIES, lastMsg carries lastErr. The code increments attempt
before computing the backoff, so the sleep after a failure of attempt n is
100 * 2 ^ (n + 1) ms, and it also sleeps after a retriable failure of the
last allowed attempt, before the guard fails. A non-retriable failure is
rethrown at once; an exhausted budget produces the unavailable message naming
the attempt count and the last error. -/
def callAiAux {α : Type} (svc : Nat → Except JsError α) (totalAttempts : Nat) :
    Nat → Nat → String → RetryTrace α
  | attempt, 0, lastMsg =>
    ⟨Except.error (s!"AI service unavailable after {totalAttempts} attempts: {lastMsg}"),
      attempt, []⟩
  | attempt, remaining + 1, _ =>
    match svc attempt with
    | Except.ok v => ⟨Except.ok v, attempt + 1, []⟩
    | Except.error e =>
      if retriableAiError e then
        let t := callAiAux svc totalAttempts (attempt + 1) remaining e.message
        ⟨t.result, t.attempts, (100 * 2 ^ (attempt + 1)) :: t.sleeps⟩
      else
        ⟨Except.error e.message, attempt + 1, []⟩

/-- callAiService's retry driver from recommendation.service.js, with
AI_REQUEST_RETRIES passed as retries: attempts 0 .. retries are made, only
retriable failures are retried, and the initial lastErr is JS undefined. -/
def callAiService {α : Type} (svc : Nat → Except JsError α) (retries : Nat) : RetryTrace α :=
  callAiAux svc (retries + 1) 0 (retries + 1) "undefined"

/-- The backoff of priceEstimation.service.js fetchWithRetry:
min(2 ^ attempt * 2000, 10000) ms after the failure of the given attempt. -/
def fetchBackoff (attempt : Nat) : Nat := min (2 ^ attempt * 2000) 10000

/-- The for loop of fetchWithRetry: every failure is retried (its catch does
not discriminate between network errors, timeouts, 503s and other HTTP
statuses), the failure of the last allowed attempt (attempt = retries - 1) is
converted into the failed-after-N-attempts message, and falling out of a
zero-iteration loop is the JS undefined result. -/
def fetchAux {α : Type} (svc : Nat → Except JsError α) (retries : Nat) :
    Nat → Nat → RetryTrace α
  | attempt, 0 => ⟨Except.error "undefined", attempt, []⟩
  | attempt, remaining + 1 =>
    match svc attempt with
    | Except.ok v => ⟨Except.ok v, attempt + 1, []⟩
    | Except.error e =>
      if remaining = 0 then
        ⟨Except.error (s!"AI Service request failed after {retries} attempts: {e.message}"),
          attempt + 1, []⟩
      else
        let t := fetchAux svc retries (attempt + 1) remaining
        ⟨t.result, t.attempts, fetchBackoff attempt :: t.sleeps⟩

/-- fetchWithRetry from priceEstimation.service.js: at most retries attempts,
0-indexed from 0. -/
def fetchWithRetry {α : Type} (svc : Nat → Except JsError α) (retries : Nat) : RetryTrace α :=
  fetchAux svc retries 0 retries

/-- A service failing with a retriable connection error on attempts 0 and 1
and succeeding from attempt 2 on. -/
def svcFailTwice : Nat → Except JsError String :=
  fun n => if n < 2 then Except.error ⟨"FetchError", "connect ECONNREFUSED 127.0.0.1:8000"⟩
           else Except.ok "ok"

/-- A service whose every attempt fails with a retriable connection error. -/
def svcAlwaysFail : Nat → Except JsError String :=
  fun _ => Except.error ⟨"FetchError", "connect ECONNREFUSED 127.0.0.1:8000"⟩

/-- A service answering HTTP 404 with a well-formed body on every attempt, as
the non-503 branch of fetchWithRetry reports it. -/
def svc404 : Nat → Except JsError String :=
  fun _ => Except.error ⟨"Error", "AI Service returned 404: Not Found"⟩

/-- A service answering HTTP 503 on every attempt, as callAiService's doFetch
reports a non-ok response. -/
def svc503 : Nat → Except JsError String :=
  fun _ => Except.error ⟨"Error", "AI service error: 503 Service Unavailable"⟩

/-- The malformed-payload failure callAiService's doFetch raises when the
expected recommendations key is absent. -/
def invalidPayloadError : JsError :=
  ⟨"Error", "AI service returned invalid payload"⟩

/-- Model status as returned by GET /model-status: training_count is
service-owned and may be absent. -/
structure ModelStatus where
  is_trained : Bool
  training_count : Option Int
deriving DecidableEq, Repr

/-- The retrain decision of checkAndRetainIfNeeded (the code's spelling): an
untrained status triggers training at once; otherwise the reported
training_count - defaulting to currentCount when absent or 0, because the
code reads it with a JS or - is compared with the current eligible-listing
count, and a delta of at least 5 retrains. Returns whether a training call
was triggered. -/
def checkAndRetainIfNeeded (status : ModelStatus) (currentCount : Int) : Bool :=
  if !status.is_trained then true
  else
    let trainingCount : Int :=
      match status.training_count with
      | some n => if n = 0 then currentCount else n
      | none => currentCount
    decide (5 ≤ currentCount - trainingCount)

/-- JS parseInt on a numeric value: truncation toward zero. -/
def jsTrunc (q : ℚ) : Int := if 0 ≤ q then ⌊q⌋ else -(⌊-q⌋)

/-- JS Math.round: floor(x + 1/2), also for negative inputs. -/
def jsRound (q : ℚ) : Int := ⌊q + 1 / 2⌋

/-- JS falsiness of an optional string: missing, null, or empty. -/
def strFalsy (s : Option String) : Bool :=
  match s with
  | none => true
  | some v => v == ""

/-- The single-property input of predictPrice; absent and null JS fields are
none. Numeric fields arrive as numbers (string inputs and NaN are outside
this model), createdAt as a millisecond timestamp. -/
structure PropertyData where
  areaSqFt : Option ℚ
  bedrooms : Option ℚ
  bathrooms : Option ℚ
  type : Option String
  city : Option String
  address : Option String
  createdAt : Option Int
deriving DecidableEq, Repr

/-- City resolution in predictPrice: the explicit city field, else a city
extracted from the address when one is given, else the fixed fallback
"mumbai"; each step tests JS falsiness. -/
def resolveCity (d : PropertyData) : String :=
  let c2 := if strFalsy d.city && !(strFalsy d.address) then some (extractCity d.address)
            else d.city
  match c2 with
  | none => "mumbai"
  | some v => if v = "" then "mumbai" else v

/-- UTF-16 code units of a character, as the JS charCodeAt loop enumerates
them (a code point beyond the basic plane contributes its surrogate pair). -/
def utf16Units (c : Char) : List Nat :=
  if c.toNat < 65536 then [c.toNat]
  else [55296 + (c.toNat - 65536) / 1024, 56320 + (c.toNat - 65536) % 1024]

/-- Sum of the UTF-16 code units of a string (the charCodeAt loop of
_encodeCategory). -/
def charCodeSum (s : String) : Nat :=
  (s.data.map utf16Units).flatten.sum

/-- _encodeCategory from PriceEstimationService: a falsy category (absent,
null or empty) encodes to 0.5; otherwise the character-code sum modulo 100,
scaled into [0, 1) in steps of 0.01. A function of the category string alone,
independent of any candidate batch. -/
def encodeCategory (category : Option String) : ℚ :=
  match category with
  | none => 1 / 2
  | some s => if s = "" then 1 / 2 else ((charCodeSum s % 100 : ℕ) : ℚ) / 100

/-- The hard rent/sale type split of predictPrice: rent 0, sale 1, anything
else 0.5, after lowercasing and with a falsy type treated as "unknown". -/
def typeCode (t : Option String) : ℚ :=
  let s := (match t with
            | none => "unknown"
            | some v => if v = "" then "unknown" else v).toLower
  if s = "rent" then 0 else if s = "sale" then 1 else 1 / 2

/-- calculatePropertyAge: whole JS years (365.25 days of milliseconds) from
createdAt to now, floored; a falsy createdAt (absent or the zero timestamp,
which predictPrice already collapses to null) is age 0. -/
def calculatePropertyAge (now : Int) (createdAt : Option Int) : Int :=
  match createdAt with
  | none => 0
  | some t => if t = 0 then 0 else ⌊((now - t : ℚ)) / 31557600000⌋

/-- The feature object predictPrice posts to /predict-price. -/
structure PredictFeatures where
  normalized_area_sqft : ℚ
  bedrooms : Int
  bathrooms : Int
  normalized_city_code : ℚ
  normalized_type_code : ℚ
  property_age_years : Int
deriving DecidableEq, Repr

/-- Feature construction of predictPrice, after validation: area defaulted
to 1000 when falsy then clamped to [0, 1] against the assumed 0 - 10000
range; bedrooms and bathrooms parsed with parseInt and defaulted to 1 when
falsy; the city hash code; the rent/sale split; the property age at the
current clock. -/
def buildFeatures (d : PropertyData) (now : Int) : PredictFeatures :=
  let areaSqFt : ℚ := match d.areaSqFt with
    | none => 1000
    | some q => if q = 0 then 1000 else q
  let normalizedArea := min 1 (max 0 (areaSqFt / 10000))
  let bedrooms : Int := match d.bedrooms with
    | none => 1
    | some q => if jsTrunc q = 0 then 1 else jsTrunc q
  let bathrooms : Int := match d.bathrooms with
    | none => 1
    | some q => if jsTrunc q = 0 then 1 else jsTrunc q
  { normalized_area_sqft := normalizedArea
    bedrooms := bedrooms
    bathrooms := bathrooms
    normalized_city_code := encodeCategory (some (resolveCity d))
    normalized_type_code := typeCode d.type
    property_age_years := calculatePropertyAge now (match d.createdAt with
      | none => none
      | some t => if t = 0 then none else some t) }

/-- The /predict-price response shape: price_range and confidence_score may
be absent, and a falsy (zero) predicted_price fails validation. -/
structure PredictionResponse where
  predicted_price : ℚ
  price_range : Option (ℚ × ℚ)
  confidence_score : Option ℚ
deriving DecidableEq, Repr

/-- The value predictPrice returns on success, after Math.round. -/
structure PredictResult where
  predicted_price : Int
  price_min : Int
  price_max : Int
  confidence : Option ℚ
deriving DecidableEq, Repr

/-- The remote price service as the deterministic black box predictPrice
talks to within one request: the prediction for given features before any
training, the status probe, the training outcome, and the prediction after a
training triggered by this very call. -/
structure PriceService where
  predictBefore : PredictFeatures → Except JsError PredictionResponse
  statusIsTrained : Bool
  trainResult : Except JsError Unit
  predictAfterTrain : PredictFeatures → Except JsError PredictionResponse

/-- predictPrice from PriceEstimationService: validate the four required
fields, build the feature object, call the service; on a failed call consult
the status and, when untrained, train once and retry the prediction exactly
once; validate that the response carries a nonzero predicted price and a
price range; round the prices. Every thrown message is wrapped by the outer
catch into the prediction-failed message. -/
def predictPrice (svc : PriceService) (now : Int) (d : PropertyData) : Except String PredictResult :=
  if d.areaSqFt.isNone then Except.error "Price prediction failed: Missing required field: areaSqFt"
  else if d.bedrooms.isNone then Except.error "Price prediction failed: Missing required field: bedrooms"
  else if d.bathrooms.isNone then Except.error "Price prediction failed: Missing required field: bathrooms"
  else if d.type.isNone then Except.error "Price prediction failed: Missing required field: type"
  else
    let features := buildFeatures d now
    let responded : Except String PredictionResponse :=
      match svc.predictBefore features with
      | Except.ok p => Except.ok p
      | Except.error e =>
        if !svc.statusIsTrained then
          match svc.trainResult with
          | Except.error te => Except.error (s!"Failed to train price model: {te.message}")
          | Except.ok _ =>
            match svc.predictAfterTrain features with
            | Except.ok p => Except.ok p
            | Except.error e2 => Except.error e2.message
        else Except.error e.message
    match responded with
    | Except.error m => Except.error (s!"Price prediction failed: {m}")
    | Except.ok p =>
      match p.price_range with
      | none => Except.error "Price prediction failed: Invalid response from AI service"
      | some pr =>
        if p.predicted_price = 0 then
          Except.error "Price prediction failed: Invalid response from AI service"
        else
          Except.ok ⟨jsRound p.predicted_price, jsRound pr.1, jsRound pr.2, p.confidence_score⟩

/-- The validity precondition of predictPrice: the four required fields are
present and non-null. -/
def validPropertyData (d : PropertyData) : Prop :=
  d.areaSqFt.isSome ∧ d.bedrooms.isSome ∧ d.bathrooms.isSome ∧ d.type.isSome

instance (d : PropertyData) : Decidable (validPropertyData d) := by
  unfold validPropertyData; infer_instance

/-- The batch-relative city vocabulary of the recommendation path: distinct
lowercased extracted cities of the catalog, in first-seen order (the cities
array of recommend). -/
def recCities (addresses : List (Option String)) : List String :=
  (addresses.map (fun a => jsToLower (extractCity a))).dedup

/-- The cityIndex helper of recommend: the index of the lowercased city in
the batch vocabulary, clamped to 0 when absent as Math.max(0, indexOf)
does. -/
def recIdx (cities : List String) (city : String) : Nat :=
  if jsToLower city ∈ cities then cities.indexOf (jsToLower city) else 0

/-- The batch-relative city encoding of the recommendation path (cityIndex
and cityNorm in recommend): the clamped index divided by max(1, count - 1),
and 0 when the batch has at most one distinct city. -/
def recCityNorm (addresses : List (Option String)) (city : String) : ℚ :=
  if 1 < (recCities addresses).length then
    ((recIdx (recCities addresses) city : ℕ) : ℚ) / (((recCities addresses).length - 1 : ℕ) : ℚ)
  else 0

/-- Batch able to see CityA first: the rec-path code of CityB here is 1. -/
def batchA : List (Option String) :=
  [some "1 Road, CityA, State", some "2 Road, CityB, State"]

/-- The same two addresses in the opposite order: CityB now encodes to 0. -/
def batchB : List (Option String) :=
  [some "2 Road, CityB, State", some "1 Road, CityA, State"]

/-- A valid single-property input used to instantiate the determinism
theorem. -/
def sampleProperty : PropertyData :=
  ⟨some 1200, some 2, some 1, some "sale", some "Pune", none, none⟩

/-- A fixed, already-trained remote price service used to instantiate the
determinism theorem. -/
def sampleService : PriceService :=
  ⟨fun _ => Except.ok ⟨100000, some (90000, 110000), some (9 / 10)⟩,
   true, Except.ok (), fun _ => Except.error ⟨"Error", "not reached"⟩⟩

/-- The source interaction listing of the filter examples: effective price
1000. -/
def fSource : Listing := ⟨"src", 1000, 0, 0⟩

/-- A catalog listing with effective price 0 (both price fields absent or
zero). -/
def fZero : Listing := ⟨"zero", 0, 0, 0⟩

/-- The catalog of the filter examples: the source, the zero-priced listing,
and candidates at prices 500, 2000, 400, 2500 and 1000. -/
def fCatalog : List Listing :=
  [fSource, fZero, ⟨"p500", 500, 0, 0⟩, ⟨"p2000", 2000, 0, 0⟩,
   ⟨"p400", 400, 0, 0⟩, ⟨"p2500", 2500, 0, 0⟩, ⟨"p1000", 1000, 0, 0⟩]

/-- The zero-priced candidate with a high similarity score. -/
def fZeroCand : Candidate := ⟨"zero", some (9 / 10)⟩

-- ---------------------------------------------------------------------------
-- Helper lemmas
-- ---------------------------------------------------------------------------

theorem foldl_min_le_init (l : List ℚ) : ∀ a : ℚ, l.foldl min a ≤ a := by
  induction l with
  | nil => intro a; simp
  | cons x xs ih =>
    intro a
    calc xs.foldl min (min a x) ≤ min a x := ih (min a x)
    _ ≤ a := min_le_left a x

theorem foldl_min_le_mem (l : List ℚ) : ∀ a x, x ∈ l → l.foldl min a ≤ x := by
  induction l with
  | nil => intro a x hx; simp at hx
  | cons y ys ih =>
    intro a x hx
    rcases List.mem_cons.mp hx with h | h
    · subst h
      calc ys.foldl min (min a x) ≤ min a x := foldl_min_le_init ys (min a x)
      _ ≤ x := min_le_right a x
    · exact ih (min a y) x h

theorem init_le_foldl_max (l : List ℚ) : ∀ a : ℚ, a ≤ l.foldl max a := by
  induction l with
  | nil => intro a; simp
  | cons x xs ih =>
    intro a
    calc a ≤ max a x := le_max_left a x
    _ ≤ xs.foldl max (max a x) := ih (max a x)

theorem mem_le_foldl_max (l : List ℚ) : ∀ a x, x ∈ l → x ≤ l.foldl max a := by
  induction l with
  | nil => intro a x hx; simp at hx
  | cons y ys ih =>
    intro a x hx
    rcases List.mem_cons.mp hx with h | h
    · subst h
      calc x ≤ max a x := le_max_right a x
      _ ≤ ys.foldl max (max a x) := init_le_foldl_max ys (max a x)
    · exact ih (max a y) x h

theorem cityParts_mem_ne_empty (a : String) : ∀ s ∈ cityParts a, s ≠ "" := by
  intro s hs
  have := List.of_mem_filter hs
  simpa using this

-- ---------------------------------------------------------------------------
-- C5
-- ---------------------------------------------------------------------------

/-- C5: for every recommendation request with an empty favorites set, an
empty recently-viewed set and no last search, the controller returns an empty
recommendations list, whatever the catalog and whatever the recommendation
service would have answered. -/
theorem noSignal_empty :
    ∀ (allListings : List Listing) (topN : Nat) (svcResult : Except String (List Candidate)),
      getRecommendations allListings [] [] none topN svcResult = [] := by
  intro ls topN r
  unfold getRecommendations
  cases ls <;> simp

-- ---------------------------------------------------------------------------
-- C6
-- ---------------------------------------------------------------------------

/-- C6 counterexample: with a status reporting is_trained and training_count
0 and a current eligible count of 10, the delta demanded by the claim is 10,
at least 5, yet the code does not retrain, because a zero training_count is
falsy in JS and defaults to the current count. -/
theorem retrainTrigger_claim_cex :
    ¬ (checkAndRetainIfNeeded ⟨true, some 0⟩ 10 = true ↔
        ((⟨true, some 0⟩ : ModelStatus).is_trained = false ∨ 5 ≤ (10 : Int) - 0)) := by
  decide

/-- C6 amended: checkAndRetainIfNeeded triggers training exactly when the
status reports untrained, or the status-reported training_count is present
and nonzero and the current eligible-listing count exceeds it by at least 5
(an absent or zero training_count defaults to the current count, so no
retrain); in particular training_count 100 with currentCount 104 does not
retrain and currentCount 105 does. -/
theorem retrainTrigger_spec :
    (∀ (st : ModelStatus) (cc : Int),
      checkAndRetainIfNeeded st cc = true ↔
        (st.is_trained = false ∨ ∃ n, st.training_count = some n ∧ n ≠ 0 ∧ 5 ≤ cc - n))
  ∧ checkAndRetainIfNeeded ⟨true, some 100⟩ 104 = false
  ∧ checkAndRetainIfNeeded ⟨true, some 100⟩ 105 = true := by
  refine ⟨?_, by decide, by decide⟩
  rintro ⟨tr, tc⟩ cc
  cases tr with
  | false => simp [checkAndRetainIfNeeded]
  | true =>
    cases tc with
    | none => simp [checkAndRetainIfNeeded]
    | some n =>
      by_cases hn : n = 0
      · subst hn; simp [checkAndRetainIfNeeded]
      · simp only [checkAndRetainIfNeeded, Bool.not_true, Bool.false_eq_true, if_false,
          if_neg hn, decide_eq_true_eq]
        constructor
        · intro h; exact Or.inr ⟨n, rfl, hn, h⟩
        · rintro (h | ⟨m, hm, _, h⟩)
          · simp at h
          · cases hm; exact h

-- ---------------------------------------------------------------------------
-- C7
-- ---------------------------------------------------------------------------

/-- C7: the normalizer returns a same-length sequence with every output in
[0, 1]; the empty sequence maps to the empty sequence; a non-empty sequence
whose maximum equals its minimum maps to all 0.5; [1, 2, 3] maps to
[0, 0.5, 1]; and the recommendation-path copy agrees with the
price-estimation copy everywhere. -/
theorem normalize_spec :
    (∀ vs : List ℚ, (normalize vs).length = vs.length)
  ∧ (∀ vs : List ℚ, ∀ x ∈ normalize vs, 0 ≤ x ∧ x ≤ 1)
  ∧ normalize ([] : List ℚ) = []
  ∧ (∀ (v : ℚ) (vs : List ℚ),
      (v :: vs).foldl max v = (v :: vs).foldl min v →
      ∀ x ∈ normalize (v :: vs), x = 1 / 2)
  ∧ normalize [1, 2, 3] = [0, 1 / 2, 1]
  ∧ (∀ vs : List ℚ, normalizeRec vs = normalize vs) := by
  have hlen : ∀ vs : List ℚ, (normalize vs).length = vs.length := by
    intro vs
    cases vs with
    | nil => rfl
    | cons v tl => simp only [normalize]; split <;> simp
  have hbounds : ∀ vs : List ℚ, ∀ x ∈ normalize vs, 0 ≤ x ∧ x ≤ 1 := by
    intro vs x hx
    cases vs with
    | nil => simp [normalize] at hx
    | cons v tl =>
      simp only [normalize] at hx
      split at hx
      · rcases List.mem_map.mp hx with ⟨y, _, rfl⟩
        norm_num
      · rename_i hne
        rcases List.mem_map.mp hx with ⟨y, hy, rfl⟩
        have hmn : (v :: tl).foldl min v ≤ y := foldl_min_le_mem (v :: tl) v y hy
        have hmx : y ≤ (v :: tl).foldl max v := mem_le_foldl_max (v :: tl) v y hy
        have hle : (v :: tl).foldl min v ≤ (v :: tl).foldl max v := le_trans hmn hmx
        have hlt : (v :: tl).foldl min v < (v :: tl).foldl max v :=
          lt_of_le_of_ne hle (fun h => hne h.symm)
        constructor
        · exact div_nonneg (by linarith) (by linarith)
        · rw [div_le_one (by linarith)]; linarith
  have hconst : ∀ (v : ℚ) (vs : List ℚ),
      (v :: vs).foldl max v = (v :: vs).foldl min v →
      ∀ x ∈ normalize (v :: vs), x = 1 / 2 := by
    intro v vs h x hx
    simp only [normalize, if_pos h] at hx
    rcases List.mem_map.mp hx with ⟨y, _, rfl⟩
    rfl
  have hex : normalize [1, 2, 3] = [0, 1 / 2, 1] := by
    norm_num [normalize, min_def, max_def]
  have hagree : ∀ vs : List ℚ, normalizeRec vs = normalize vs := by
    intro vs; cases vs <;> rfl
  exact ⟨hlen, hbounds, rfl, hconst, hex, hagree⟩

/-- Witness for C7: the constant sequence [2, 2] has equal maximum and
minimum and its first normalized output is exactly 0.5. -/
theorem normalize_spec_witness : (1 : ℚ) / 2 = 1 / 2 :=
  normalize_spec.2.2.2.1 2 [2] (by norm_num) (1 / 2)
    (by norm_num [normalize, min_def, max_def])

-- ---------------------------------------------------------------------------
-- C8
-- ---------------------------------------------------------------------------

/-- C8: extractCity splits the address on commas, trims and drops empty
pieces, and returns the second-to-last piece when at least two exist, else
the sole piece, else "unknown"; the quoted examples hold, a null address
gives "unknown", and the recommendation-path copy agrees with the
price-estimation copy everywhere. -/
theorem extractCity_spec :
    (∀ a : Option String, extractCityRec a = extractCity a)
  ∧ (∀ a : String, 2 ≤ (cityParts a).length →
      extractCity (some a) = (cityParts a).getD ((cityParts a).length - 2) "")
  ∧ (∀ (a : String) (p : String), cityParts a = [p] → extractCity (some a) = p)
  ∧ (∀ a : String, cityParts a = [] → extractCity (some a) = "unknown")
  ∧ extractCity (some "101 Main St, CityA, State") = "CityA"
  ∧ extractCity (some "CityOnly") = "CityOnly"
  ∧ extractCity (some "") = "unknown"
  ∧ extractCity none = "unknown" := by
  have hagree : ∀ a : Option String, extractCityRec a = extractCity a := by
    intro a
    cases a with
    | none => rfl
    | some s =>
      rcases h : cityParts s with _ | ⟨p, _ | ⟨q, rest⟩⟩
      · simp [extractCity, extractCityRec, h]
      · simp [extractCity, extractCityRec, h]
      · have hmem : (p :: q :: rest).getD ((p :: q :: rest).length - 2) "" ∈ p :: q :: rest := by
          have hidx : (p :: q :: rest).length - 2 < (p :: q :: rest).length := by
            simp; omega
          rw [List.getD_eq_getElem _ _ hidx]
          exact List.getElem_mem hidx
        have hne : (p :: q :: rest).getD ((p :: q :: rest).length - 2) "" ≠ "" :=
          cityParts_mem_ne_empty s _ (h ▸ hmem)
        simp only [extractCity, extractCityRec, h]
        rw [if_neg hne]
  have htwo : ∀ a : String, 2 ≤ (cityParts a).length →
      extractCity (some a) = (cityParts a).getD ((cityParts a).length - 2) "" := by
    intro a hlen
    rcases h : cityParts a with _ | ⟨p, _ | ⟨q, rest⟩⟩ <;> rw [h] at hlen
    · simp at hlen
    · simp at hlen
    · simp [extractCity, h]
  have hone : ∀ (a : String) (p : String), cityParts a = [p] → extractCity (some a) = p := by
    intro a p h; simp [extractCity, h]
  have hzero : ∀ a : String, cityParts a = [] → extractCity (some a) = "unknown" := by
    intro a h; simp [extractCity, h]
  exact ⟨hagree, htwo, hone, hzero, by decide, by decide, by decide, rfl⟩

/-- Witness for C8: the three-piece example address has at least two pieces
and its extracted city is the second-to-last piece. -/
theorem extractCity_spec_witness :
    extractCity (some "101 Main St, CityA, State") =
      (cityParts "101 Main St, CityA, State").getD
        ((cityParts "101 Main St, CityA, State").length - 2) "" :=
  extractCity_spec.2.1 "101 Main St, CityA, State" (by decide)

-- ---------------------------------------------------------------------------
-- C10
-- ---------------------------------------------------------------------------

/-- C10 counterexample: the claim's "equals 0.5 exactly when the category is
absent or empty" fails, because the non-empty city string "2" (character
code 50) also hashes to exactly 0.5. -/
theorem encodeCategory_claim_cex :
    ¬ (encodeCategory (some "2") = 1 / 2 ↔
        (some "2" = (none : Option String) ∨ some "2" = some "")) := by
  have h : charCodeSum "2" = 50 := by decide
  simp [encodeCategory, h]
  norm_num

/-- C10 amended: the city code predictPrice sends is the character-code sum
modulo 100 scaled by 1/100, a function of the city string alone: for every
string it is a multiple of 0.01 below 1, hence within [0, 0.99]; an absent or
empty category encodes to 0.5 (though some non-empty strings may too); and it
is batch-independent, unlike the recommendation path's batch-relative
ordinal encoding, which maps the same city to different codes under
different catalog batches. -/
theorem encodeCategory_spec :
    (∀ s : String, s ≠ "" → 0 ≤ encodeCategory (some s) ∧ encodeCategory (some s) ≤ 99 / 100)
  ∧ encodeCategory none = 1 / 2
  ∧ encodeCategory (some "") = 1 / 2
  ∧ (∀ s : String, ∃ k : ℕ, k < 100 ∧ encodeCategory (some s) = (k : ℚ) / 100)
  ∧ recCityNorm batchA "CityB" = 1
  ∧ recCityNorm batchB "CityB" = 0 := by
  have hbound : ∀ s : String, s ≠ "" → 0 ≤ encodeCategory (some s) ∧ encodeCategory (some s) ≤ 99 / 100 := by
    intro s hs
    have hk : charCodeSum s % 100 < 100 := Nat.mod_lt _ (by norm_num)
    simp only [encodeCategory, if_neg hs]
    constructor
    · positivity
    · rw [div_le_div_iff₀ (by norm_num) (by norm_num)]
      have : ((charCodeSum s % 100 : ℕ) : ℚ) ≤ 99 := by exact_mod_cast Nat.lt_succ_iff.mp hk
      linarith
  have hmul : ∀ s : String, ∃ k : ℕ, k < 100 ∧ encodeCategory (some s) = (k : ℚ) / 100 := by
    intro s
    by_cases hs : s = ""
    · exact ⟨50, by norm_num, by subst hs; norm_num [encodeCategory]⟩
    · exact ⟨charCodeSum s % 100, Nat.mod_lt _ (by norm_num), by simp [encodeCategory, hs]⟩
  have hA : recCityNorm batchA "CityB" = 1 := by
    have h1 : recIdx (recCities batchA) "CityB" = 1 := by decide
    have h2 : (recCities batchA).length = 2 := by decide
    simp [recCityNorm, h1, h2]
  have hB : recCityNorm batchB "CityB" = 0 := by
    have h1 : recIdx (recCities batchB) "CityB" = 0 := by decide
    have h2 : (recCities batchB).length = 2 := by decide
    simp [recCityNorm, h1, h2]
  exact ⟨hbound, rfl, rfl, hmul, hA, hB⟩

/-- Witness for C10: the non-empty city "mumbai" receives a code within
[0, 0.99]. -/
theorem encodeCategory_spec_witness :
    0 ≤ encodeCategory (some "mumbai") ∧ encodeCategory (some "mumbai") ≤ 99 / 100 :=
  encodeCategory_spec.1 "mumbai" (by decide)

-- ---------------------------------------------------------------------------
-- C2
-- ---------------------------------------------------------------------------

theorem scoreBelow_eq_false_iff (s : Option ℚ) :
    scoreBelow s = false ↔ ∃ v, s = some v ∧ (85 : ℚ) / 100 ≤ v := by
  cases s with
  | none => simp [scoreBelow]
  | some v =>
    simp only [scoreBelow]
    constructor
    · intro h
      split at h
      · simp at h
      · exact ⟨v, rfl, le_of_not_lt (by assumption)⟩
    · rintro ⟨w, hw, hle⟩
      cases hw
      rw [if_neg (not_lt.mpr hle)]

/-- C2 counterexample: the zero-priced catalog listing passes the filter
against a source of effective price 1000 (the code skips the price-ratio
check when either effective price is not positive), although its effective
price 0 lies outside the claimed inclusive interval [500, 2000], so the
claimed if-and-only-if characterisation is false at this input. -/
theorem keepCandidate_claim_cex :
    ¬ (keepCandidate fCatalog fSource [] fZeroCand = true ↔
        (fZeroCand.id ∉ ([] : List String) ∧
         (∃ v, fZeroCand.score = some v ∧ (85 : ℚ) / 100 ≤ v) ∧
         (1 / 2 * effectivePrice fSource ≤ effectivePrice fZero ∧
          effectivePrice fZero ≤ 2 * effectivePrice fSource))) := by
  intro h
  have h1 : keepCandidate fCatalog fSource [] fZeroCand = true := by
    have hf : fCatalog.find? (fun l => l._id == ("zero" : String)) = some fZero := by decide
    simp only [keepCandidate, fZeroCand, hf]
    norm_num [effectivePrice, scoreBelow, fSource, fZero]
  have h2 := h.mp h1
  have h3 := h2.2.2.1
  norm_num [effectivePrice, fSource, fZero] at h3

/-- C2 amended: a candidate survives the processSourceList filter if and only
if it resolves to a catalog listing, its identifier is not in the combined
favorites-and-recently-viewed set, its similarity score is present and at
least 0.85, and - whenever both the source's and the candidate's effective
prices (discount if positive, else regular) are positive - their ratio lies
in the inclusive interval [0.5, 2.0]; the filter keeps service order, and the
boundary examples hold: against source price 1000, candidate prices 500 and
2000 survive while 400 and 2500 are dropped, and score exactly 0.85 survives
while 0.8499 is dropped. -/
theorem keepCandidate_spec :
    (∀ (listings : List Listing) (intL : Listing) (uset : List String)
        (c : Candidate) (rl : Listing),
      listings.find? (fun l => l._id == c.id) = some rl →
      (keepCandidate listings intL uset c = true ↔
        (c.id ∉ uset ∧
         (∃ v, c.score = some v ∧ (85 : ℚ) / 100 ≤ v) ∧
         (0 < effectivePrice intL → 0 < effectivePrice rl →
           1 / 2 ≤ effectivePrice rl / effectivePrice intL ∧
           effectivePrice rl / effectivePrice intL ≤ 2))))
  ∧ (∀ (listings : List Listing) (intL : Listing) (uset : List String)
        (recs : List Candidate) (c : Candidate),
      c ∈ validRecs listings intL uset recs ↔
        c ∈ recs ∧ keepCandidate listings intL uset c = true)
  ∧ (∀ (listings : List Listing) (intL : Listing) (uset : List String) (c : Candidate),
      listings.find? (fun l => l._id == c.id) = none →
      keepCandidate listings intL uset c = false)
  ∧ keepCandidate fCatalog fSource [] ⟨"p500", some (9 / 10)⟩ = true
  ∧ keepCandidate fCatalog fSource [] ⟨"p2000", some (9 / 10)⟩ = true
  ∧ keepCandidate fCatalog fSource [] ⟨"p400", some (9 / 10)⟩ = false
  ∧ keepCandidate fCatalog fSource [] ⟨"p2500", some (9 / 10)⟩ = false
  ∧ keepCandidate fCatalog fSource [] ⟨"p1000", some (85 / 100)⟩ = true
  ∧ keepCandidate fCatalog fSource [] ⟨"p1000", some (8499 / 10000)⟩ = false
  ∧ keepCandidate fCatalog fSource ["p1000"] ⟨"p1000", some (9 / 10)⟩ = false := by
  have hmain : ∀ (listings : List Listing) (intL : Listing) (uset : List String)
      (c : Candidate) (rl : Listing),
      listings.find? (fun l => l._id == c.id) = some rl →
      (keepCandidate listings intL uset c = true ↔
        (c.id ∉ uset ∧
         (∃ v, c.score = some v ∧ (85 : ℚ) / 100 ≤ v) ∧
         (0 < effectivePrice intL → 0 < effectivePrice rl →
           1 / 2 ≤ effectivePrice rl / effectivePrice intL ∧
           effectivePrice rl / effectivePrice intL ≤ 2))) := by
    intro listings intL uset c rl hfind
    simp only [keepCandidate, hfind]
    by_cases hp : 0 < effectivePrice intL ∧ 0 < effectivePrice rl ∧
        (effectivePrice rl / effectivePrice intL < 1 / 2 ∨
         2 < effectivePrice rl / effectivePrice intL)
    · rw [if_pos hp]
      simp only [Bool.false_eq_true, false_iff]
      rintro ⟨-, -, hrange⟩
      obtain ⟨hi, hr, hout⟩ := hp
      have hb := hrange hi hr
      rcases hout with hlo | hhi
      · linarith [hb.1]
      · linarith [hb.2]
    · rw [if_neg hp]
      by_cases hs : scoreBelow c.score = true
      · rw [if_pos hs]
        simp only [Bool.false_eq_true, false_iff]
        rintro ⟨-, ⟨v, hv, hge⟩, -⟩
        rw [hv] at hs
        simp [scoreBelow, if_neg (not_lt.mpr hge)] at hs
      · have hs' : scoreBelow c.score = false := by
          revert hs; cases scoreBelow c.score <;> simp
        rw [if_neg hs]
        by_cases hc : uset.contains c.id = true
        · rw [if_pos hc]
          simp only [Bool.false_eq_true, false_iff]
          rintro ⟨hnm, -, -⟩
          exact hnm (List.elem_iff.mp hc)
        · rw [if_neg hc]
          simp only [true_iff]
          refine ⟨fun hm => hc (List.elem_iff.mpr hm), scoreBelow_eq_false_iff c.score |>.mp hs', ?_⟩
          intro hi hr
          push_neg at hp
          exact hp hi hr
  have hfilter : ∀ (listings : List Listing) (intL : Listing) (uset : List String)
      (recs : List Candidate) (c : Candidate),
      c ∈ validRecs listings intL uset recs ↔
        c ∈ recs ∧ keepCandidate listings intL uset c = true := by
    intro listings intL uset recs c
    simp [validRecs, List.mem_filter]
  have hnone : ∀ (listings : List Listing) (intL : Listing) (uset : List String) (c : Candidate),
      listings.find? (fun l => l._id == c.id) = none →
      keepCandidate listings intL uset c = false := by
    intro listings intL uset c hfind
    simp only [keepCandidate, hfind]
  have hfind500 : fCatalog.find? (fun l => l._id == ("p500" : String)) = some ⟨"p500", 500, 0, 0⟩ := by decide
  have hfind2000 : fCatalog.find? (fun l => l._id == ("p2000" : String)) = some ⟨"p2000", 2000, 0, 0⟩ := by decide
  have hfind400 : fCatalog.find? (fun l => l._id == ("p400" : String)) = some ⟨"p400", 400, 0, 0⟩ := by decide
  have hfind2500 : fCatalog.find? (fun l => l._id == ("p2500" : String)) = some ⟨"p2500", 2500, 0, 0⟩ := by decide
  have hfind1000 : fCatalog.find? (fun l => l._id == ("p1000" : String)) = some ⟨"p1000", 1000, 0, 0⟩ := by decide
  refine ⟨hmain, hfilter, hnone, ?_, ?_, ?_, ?_, ?_, ?_, ?_⟩
  · simp only [keepCandidate, hfind500]
    norm_num [effectivePrice, scoreBelow, fSource]
  · simp only [keepCandidate, hfind2000]
    norm_num [effectivePrice, scoreBelow, fSource]
  · simp only [keepCandidate, hfind400]
    norm_num [effectivePrice, scoreBelow, fSource]
  · simp only [keepCandidate, hfind2500]
    norm_num [effectivePrice, scoreBelow, fSource]
  · simp only [keepCandidate, hfind1000]
    norm_num [effectivePrice, scoreBelow, fSource]
  · simp only [keepCandidate, hfind1000]
    norm_num [effectivePrice, scoreBelow, fSource]
  · simp only [keepCandidate, hfind1000]
    norm_num [effectivePrice, scoreBelow, fSource]

/-- Witness for C2: the amended characterisation applied to the in-range
candidate of price 500 against the source of price 1000. -/
theorem keepCandidate_spec_witness :
    keepCandidate fCatalog fSource [] ⟨"p500", some (9 / 10)⟩ = true ↔
      ((⟨"p500", some (9 / 10)⟩ : Candidate).id ∉ ([] : List String) ∧
       (∃ v, (⟨"p500", some (9 / 10)⟩ : Candidate).score = some v ∧ (85 : ℚ) / 100 ≤ v) ∧
       (0 < effectivePrice fSource → 0 < effectivePrice ⟨"p500", 500, 0, 0⟩ →
         1 / 2 ≤ effectivePrice ⟨"p500", 500, 0, 0⟩ / effectivePrice fSource ∧
         effectivePrice ⟨"p500", 500, 0, 0⟩ / effectivePrice fSource ≤ 2)) :=
  keepCandidate_spec.1 fCatalog fSource [] ⟨"p500", some (9 / 10)⟩ ⟨"p500", 500, 0, 0⟩ (by decide)

-- ---------------------------------------------------------------------------
-- Retry-loop helper lemmas
-- ---------------------------------------------------------------------------

theorem fetchAux_sleeps_get {α : Type} (svc : Nat → Except JsError α) (retries : Nat) :
    ∀ (r a n s : Nat), (fetchAux svc retries a r).sleeps.get? n = some s →
      s = fetchBackoff (a + n) := by
  intro r
  induction r with
  | zero => intro a n s h; simp [fetchAux] at h
  | succ r ih =>
    intro a n s h
    cases hsvc : svc a with
    | ok v => simp [fetchAux, hsvc] at h
    | error e =>
      by_cases hr : r = 0
      · simp [fetchAux, hsvc, hr] at h
      · simp only [fetchAux, hsvc, if_neg hr] at h
        cases n with
        | zero =>
          simp at h
          rw [Nat.add_zero]
          exact h.symm
        | succ n =>
          simp only [List.get?_cons_succ] at h
          have := ih (a + 1) n s h
          have harith : a + 1 + n = a + (n + 1) := by omega
          rw [harith] at this
          exact this

theorem callAiAux_sleeps_get {α : Type} (svc : Nat → Except JsError α) (T : Nat) :
    ∀ (r a : Nat) (m : String) (n s : Nat),
      (callAiAux svc T a r m).sleeps.get? n = some s →
      s = 100 * 2 ^ (a + n + 1) ∧ n < r := by
  intro r
  induction r with
  | zero => intro a m n s h; simp [callAiAux] at h
  | succ r ih =>
    intro a m n s h
    cases hsvc : svc a with
    | ok v => simp [callAiAux, hsvc] at h
    | error e =>
      by_cases hret : retriableAiError e = true
      · simp only [callAiAux, hsvc, if_pos hret] at h
        cases n with
        | zero =>
          simp at h
          rw [Nat.add_zero]
          exact ⟨h.symm, Nat.succ_pos r⟩
        | succ n =>
          simp only [List.get?_cons_succ] at h
          obtain ⟨hs, hn⟩ := ih (a + 1) e.message n s h
          have harith : a + 1 + n + 1 = a + (n + 1) + 1 := by omega
          rw [harith] at hs
          exact ⟨hs, by omega⟩
      · simp [callAiAux, hsvc, hret] at h

theorem fetchAux_allFail {α : Type} (svc : Nat → Except JsError α) (e : Nat → JsError)
    (retries : Nat) (hsvc : ∀ n, svc n = Except.error (e n)) :
    ∀ (r a : Nat), 1 ≤ r →
      (fetchAux svc retries a r).attempts = a + r ∧
      (fetchAux svc retries a r).result =
        Except.error
          (s!"AI Service request failed after {retries} attempts: {(e (a + r - 1)).message}") := by
  intro r
  induction r with
  | zero => intro a h; omega
  | succ r ih =>
    intro a _
    by_cases hr : r = 0
    · subst hr
      simp [fetchAux, hsvc a]
    · have h1 : 1 ≤ r := by omega
      obtain ⟨iha, ihr⟩ := ih (a + 1) h1
      have harith1 : a + 1 + r = a + (r + 1) := by omega
      have harith2 : a + 1 + r - 1 = a + (r + 1) - 1 := by omega
      rw [harith1] at iha
      rw [harith2] at ihr
      simp only [fetchAux, hsvc a, if_neg hr]
      exact ⟨iha, ihr⟩

theorem callAiAux_allFail {α : Type} (svc : Nat → Except JsError α) (e : Nat → JsError)
    (T : Nat) (hsvc : ∀ n, svc n = Except.error (e n))
    (hret : ∀ n, retriableAiError (e n) = true) :
    ∀ (r a : Nat) (m : String), 1 ≤ r →
      (callAiAux svc T a r m).attempts = a + r ∧
      (callAiAux svc T a r m).result =
        Except.error
          (s!"AI service unavailable after {T} attempts: {(e (a + r - 1)).message}") := by
  intro r
  induction r with
  | zero => intro a m h; omega
  | succ r ih =>
    intro a m _
    by_cases hr : r = 0
    · subst hr
      simp [callAiAux, hsvc a, hret a]
    · have h1 : 1 ≤ r := by omega
      obtain ⟨iha, ihr⟩ := ih (a + 1) (e a).message h1
      have harith1 : a + 1 + r = a + (r + 1) := by omega
      have harith2 : a + 1 + r - 1 = a + (r + 1) - 1 := by omega
      rw [harith1] at iha
      rw [harith2] at ihr
      simp only [callAiAux, hsvc a, hret a, if_pos]
      exact ⟨iha, ihr⟩

-- ---------------------------------------------------------------------------
-- C3
-- ---------------------------------------------------------------------------

/-- C3: in fetchWithRetry the sleep after the failure of 0-indexed attempt n
is min(2^n · 2000, 10000) ms; in callAiService every sleep also fits the
min(2^n · base, cap) pattern, with base 200 and a cap never reached within
the budget; a service failing twice then succeeding returns the success
after exactly 2 retries (3 attempts) with the backoff sleeps of attempts 0
and 1; and an always-failing service exhausts the budget - retries attempts
for fetchWithRetry, retries + 1 for callAiService - and fails with a message
naming that attempt count and embedding the last underlying error message. -/
theorem retryBackoff_spec :
    (∀ (svc : Nat → Except JsError String) (retries n s : Nat),
      (fetchWithRetry svc retries).sleeps.get? n = some s →
      s = min (2 ^ n * 2000) 10000)
  ∧ (∀ (svc : Nat → Except JsError String) (retries : Nat), ∃ base cap : Nat,
      ∀ n s : Nat, (callAiService svc retries).sleeps.get? n = some s →
        s = min (2 ^ n * base) cap)
  ∧ fetchWithRetry svcFailTwice 5 = ⟨Except.ok "ok", 3, [2000, 4000]⟩
  ∧ callAiService svcFailTwice 2 = ⟨Except.ok "ok", 3, [200, 400]⟩
  ∧ (∀ (svc : Nat → Except JsError String) (e : Nat → JsError) (retries : Nat),
      (∀ n, svc n = Except.error (e n)) → 1 ≤ retries →
      (fetchWithRetry svc retries).attempts = retries ∧
      (fetchWithRetry svc retries).result =
        Except.error
          (s!"AI Service request failed after {retries} attempts: {(e (retries - 1)).message}"))
  ∧ (∀ (svc : Nat → Except JsError String) (e : Nat → JsError) (retries : Nat),
      (∀ n, svc n = Except.error (e n)) → (∀ n, retriableAiError (e n) = true) →
      (callAiService svc retries).attempts = retries + 1 ∧
      (callAiService svc retries).result =
        Except.error
          (s!"AI service unavailable after {retries + 1} attempts: {(e retries).message}")) := by
  refine ⟨?_, ?_, by decide, by decide, ?_, ?_⟩
  · intro svc retries n s h
    have := fetchAux_sleeps_get svc retries retries 0 n s h
    simpa [fetchBackoff] using this
  · intro svc retries
    refine ⟨200, 200 * 2 ^ retries, ?_⟩
    intro n s h
    obtain ⟨hs, hn⟩ := callAiAux_sleeps_get svc (retries + 1) (retries + 1) 0 "undefined" n s h
    have hval : s = 2 ^ n * 200 := by
      rw [hs]
      have : (0 : Nat) + n + 1 = n + 1 := by omega
      rw [this, pow_succ]
      ring
    have hle : 2 ^ n * 200 ≤ 200 * 2 ^ retries := by
      have hpow : (2 : Nat) ^ n ≤ 2 ^ retries :=
        Nat.pow_le_pow_right (by norm_num) (by omega)
      calc 2 ^ n * 200 = 200 * 2 ^ n := by ring
      _ ≤ 200 * 2 ^ retries := Nat.mul_le_mul_left 200 hpow
    rw [hval, min_eq_left hle]
  · intro svc e retries hsvc hret
    obtain ⟨ha, hr⟩ := fetchAux_allFail svc e retries hsvc retries 0 (by omega)
    rw [Nat.zero_add] at ha
    rw [Nat.zero_add] at hr
    exact ⟨ha, hr⟩
  · intro svc e retries hsvc hretr
    obtain ⟨ha, hr⟩ := callAiAux_allFail svc e (retries + 1) hsvc hretr (retries + 1) 0 "undefined" (by omega)
    rw [Nat.zero_add] at ha
    have harith : 0 + (retries + 1) - 1 = retries := by omega
    rw [harith] at hr
    exact ⟨ha, hr⟩

/-- Witness for C3: the first sleep of an always-failing fetchWithRetry run
with budget 5 is exactly min(2^0 · 2000, 10000) = 2000 ms. -/
theorem retryBackoff_spec_witness : (2000 : Nat) = min (2 ^ 0 * 2000) 10000 :=
  retryBackoff_spec.1 svcAlwaysFail 5 0 2000 (by decide)

-- ---------------------------------------------------------------------------
-- C4
-- ---------------------------------------------------------------------------

/-- C4 counterexample: against the claimed policy, fetchWithRetry retries an
HTTP 404 failure until its budget of 5 attempts is exhausted instead of
surfacing it immediately (attempts would be 1), and callAiService does not
retry an HTTP 503 at all (attempts would be 3 with its budget of 3). -/
theorem retryPolicy_claim_cex :
    (fetchWithRetry svc404 5).attempts ≠ 1 ∧ (callAiService svc503 2).attempts ≠ 3 := by
  decide

/-- C4 amended: callAiService retries a failed attempt exactly when the
failure is an AbortError, a timeout-worded error, or an ECONNRESET or
ECONNREFUSED network error; every other failure - including HTTP 503 and a
malformed or absent expected JSON key - is surfaced immediately without
retry. fetchWithRetry instead retries every failure, including non-503 HTTP
statuses such as 404, until its attempt budget is exhausted; in both loops
only exhaustion of the budget produces the final service-unavailable
failure message. -/
theorem retryPolicy_spec :
    (∀ (svc : Nat → Except JsError String) (retries : Nat) (e : JsError),
      svc 0 = Except.error e → retriableAiError e = false →
      callAiService svc retries = ⟨Except.error e.message, 1, []⟩)
  ∧ retriableAiError ⟨"Error", "AI service error: 503 Service Unavailable"⟩ = false
  ∧ retriableAiError invalidPayloadError = false
  ∧ retriableAiError ⟨"AbortError", "The user aborted a request."⟩ = true
  ∧ retriableAiError ⟨"FetchError", "connect ECONNREFUSED 127.0.0.1:8000"⟩ = true
  ∧ retriableAiError ⟨"FetchError", "network timeout at: http://x"⟩ = true
  ∧ (fetchWithRetry svc404 5).attempts = 5
  ∧ (fetchWithRetry svc404 5).result =
      Except.error "AI Service request failed after 5 attempts: AI Service returned 404: Not Found"
  ∧ callAiService svc503 2 =
      ⟨Except.error "AI service error: 503 Service Unavailable", 1, []⟩ := by
  refine ⟨?_, by decide, by decide, by decide, by decide, by decide, by decide, by decide, by decide⟩
  intro svc retries e h hnr
  simp [callAiService, callAiAux, h, hnr]

/-- Witness for C4: applying the immediate-surfacing law to the always-503
service shows its 503 failure is rethrown after a single attempt with no
backoff sleep. -/
theorem retryPolicy_spec_witness :
    callAiService svc503 2 =
      ⟨Except.error (JsError.mk "Error" "AI service error: 503 Service Unavailable").message, 1, []⟩ :=
  retryPolicy_spec.1 svc503 2 ⟨"Error", "AI service error: 503 Service Unavailable"⟩
    (by decide) (by decide)

-- ---------------------------------------------------------------------------
-- Round-robin merge helper lemmas
-- ---------------------------------------------------------------------------

theorem takeFirstUnseen_none (seen : List String) :
    ∀ g : List Candidate, takeFirstUnseen seen g = none → ∀ c ∈ g, c.id ∈ seen := by
  intro g
  induction g with
  | nil => intro _ c hc; simp at hc
  | cons x xs ih =>
    intro h c hc
    simp only [takeFirstUnseen] at h
    by_cases hx : seen.contains x.id = true
    · rw [if_pos hx] at h
      rcases List.mem_cons.mp hc with rfl | hc2
      · exact List.elem_iff.mp hx
      · exact ih h c hc2
    · rw [if_neg hx] at h
      simp at h

theorem takeFirstUnseen_some (seen : List String) :
    ∀ (g rest : List Candidate) (c : Candidate),
      takeFirstUnseen seen g = some (c, rest) →
      c.id ∉ seen ∧ rest.length < g.length ∧
      ∀ x ∈ g, x = c ∨ x ∈ rest ∨ x.id ∈ seen := by
  intro g
  induction g with
  | nil => intro rest c h; simp [takeFirstUnseen] at h
  | cons y ys ih =>
    intro rest c h
    simp only [takeFirstUnseen] at h
    by_cases hy : seen.contains y.id = true
    · rw [if_pos hy] at h
      obtain ⟨hni, hlen, hall⟩ := ih rest c h
      refine ⟨hni, by simpa using Nat.lt_succ_of_lt hlen, ?_⟩
      intro x hx
      rcases List.mem_cons.mp hx with rfl | hx2
      · exact Or.inr (Or.inr (List.elem_iff.mp hy))
      · exact hall x hx2
    · rw [if_neg hy] at h
      simp only [Option.some.injEq, Prod.mk.injEq] at h
      obtain ⟨hc, hrest⟩ := h
      subst hc
      subst hrest
      refine ⟨fun hmem => hy (List.elem_iff.mpr hmem), by simp, ?_⟩
      intro x hx
      rcases List.mem_cons.mp hx with rfl | hx2
      · exact Or.inl rfl
      · exact Or.inr (Or.inl hx2)

theorem roundStep_seen_mem (x : String) :
    ∀ (gens : List (List Candidate)) (seen : List String),
      x ∈ (roundStep seen gens).2.1 ↔
        x ∈ seen ∨ x ∈ (roundStep seen gens).1.map Candidate.id := by
  intro gens
  induction gens with
  | nil => intro seen; simp [roundStep]
  | cons g gs ih =>
    intro seen
    cases htfu : takeFirstUnseen seen g with
    | none => simpa [roundStep, htfu] using ih seen
    | some p =>
      obtain ⟨c, rest⟩ := p
      simp only [roundStep, htfu, List.map_cons]
      rw [ih (c.id :: seen)]
      simp only [List.mem_cons]
      tauto

theorem roundStep_em_fresh (gens : List (List Candidate)) :
    ∀ seen : List String,
      ((roundStep seen gens).1.map Candidate.id).Nodup ∧
      ∀ i ∈ (roundStep seen gens).1.map Candidate.id, i ∉ seen := by
  induction gens with
  | nil => intro seen; simp [roundStep]
  | cons g gs ih =>
    intro seen
    cases htfu : takeFirstUnseen seen g with
    | none => simpa [roundStep, htfu] using ih seen
    | some p =>
      obtain ⟨c, rest⟩ := p
      obtain ⟨hni, -, -⟩ := takeFirstUnseen_some seen g rest c htfu
      obtain ⟨ihn, ihf⟩ := ih (c.id :: seen)
      simp only [roundStep, htfu, List.map_cons]
      constructor
      · refine List.nodup_cons.mpr ⟨?_, ihn⟩
        intro hmem
        exact (ihf c.id hmem) (List.mem_cons_self _ _)
      · intro i hi
        rcases List.mem_cons.mp hi with rfl | hi2
        · exact hni
        · intro hmem
          exact (ihf i hi2) (List.mem_cons_of_mem _ hmem)

theorem roundStep_measure_le (gens : List (List Candidate)) :
    ∀ seen, gensMeasure (roundStep seen gens).2.2 ≤ gensMeasure gens := by
  induction gens with
  | nil => intro seen; simp [roundStep]
  | cons g gs ih =>
    intro seen
    cases htfu : takeFirstUnseen seen g with
    | none =>
      have h := ih seen
      simp only [roundStep, htfu]
      simp only [gensMeasure, List.map_cons, List.sum_cons, List.length_cons] at *
      omega
    | some p =>
      obtain ⟨c, rest⟩ := p
      obtain ⟨-, hlen, -⟩ := takeFirstUnseen_some seen g rest c htfu
      have h := ih (c.id :: seen)
      simp only [roundStep, htfu]
      simp only [gensMeasure, List.map_cons, List.sum_cons, List.length_cons] at *
      omega

theorem roundStep_measure_lt (g : List Candidate) (gs : List (List Candidate)) (seen : List String) :
    gensMeasure (roundStep seen (g :: gs)).2.2 < gensMeasure (g :: gs) := by
  cases htfu : takeFirstUnseen seen g with
  | none =>
    have h := roundStep_measure_le gs seen
    simp only [roundStep, htfu]
    simp only [gensMeasure, List.map_cons, List.sum_cons, List.length_cons] at *
    omega
  | some p =>
    obtain ⟨c, rest⟩ := p
    obtain ⟨-, hlen, -⟩ := takeFirstUnseen_some seen g rest c htfu
    have h := roundStep_measure_le gs (c.id :: seen)
    simp only [roundStep, htfu]
    simp only [gensMeasure, List.map_cons, List.sum_cons, List.length_cons] at *
    omega

theorem roundStep_complete (gens : List (List Candidate)) :
    ∀ (seen : List String) (x : Candidate) (g : List Candidate), g ∈ gens → x ∈ g →
      x.id ∈ seen ∨ x.id ∈ (roundStep seen gens).1.map Candidate.id ∨
        ∃ g2 ∈ (roundStep seen gens).2.2, x ∈ g2 := by
  induction gens with
  | nil => intro seen x g hg; simp at hg
  | cons g0 gs ih =>
    intro seen x g hg hx
    cases htfu : takeFirstUnseen seen g0 with
    | none =>
      simp only [roundStep, htfu]
      rcases List.mem_cons.mp hg with rfl | hg2
      · exact Or.inl (takeFirstUnseen_none seen g htfu x hx)
      · exact ih seen x g hg2 hx
    | some p =>
      obtain ⟨c, rest⟩ := p
      simp only [roundStep, htfu, List.map_cons]
      rcases List.mem_cons.mp hg with rfl | hg2
      · obtain ⟨-, -, hall⟩ := takeFirstUnseen_some seen g rest c htfu
        rcases hall x hx with rfl | hr | hs
        · exact Or.inr (Or.inl (List.mem_cons_self _ _))
        · exact Or.inr (Or.inr ⟨rest, List.mem_cons_self _ _, hr⟩)
        · exact Or.inl hs
      · rcases ih (c.id :: seen) x g hg2 hx with hs | he | ⟨g2, hg2m, hxg2⟩
        · rcases List.mem_cons.mp hs with hceq | hs2
          · exact Or.inr (Or.inl (by rw [hceq]; exact List.mem_cons_self _ _))
          · exact Or.inl hs2
        · exact Or.inr (Or.inl (List.mem_cons_of_mem _ he))
        · exact Or.inr (Or.inr ⟨g2, List.mem_cons_of_mem _ hg2m, hxg2⟩)

theorem mergeAux_fresh (fuel : Nat) :
    ∀ (seen : List String) (gens : List (List Candidate)),
      ((mergeAux fuel seen gens).map Candidate.id).Nodup ∧
      ∀ i ∈ (mergeAux fuel seen gens).map Candidate.id, i ∉ seen := by
  induction fuel with
  | zero => intro seen gens; simp [mergeAux]
  | succ fuel ih =>
    intro seen gens
    cases gens with
    | nil => simp [mergeAux]
    | cons g gs =>
      simp only [mergeAux, List.map_append]
      obtain ⟨hn1, hf1⟩ := roundStep_em_fresh (g :: gs) seen
      obtain ⟨hn2, hf2⟩ := ih (roundStep seen (g :: gs)).2.1 (roundStep seen (g :: gs)).2.2
      constructor
      · refine List.Nodup.append hn1 hn2 ?_
        intro i h1 h2
        have hmem : i ∈ (roundStep seen (g :: gs)).2.1 :=
          (roundStep_seen_mem i (g :: gs) seen).mpr (Or.inr h1)
        exact hf2 i h2 hmem
      · intro i hi
        rcases List.mem_append.mp hi with h | h
        · exact hf1 i h
        · intro hseen
          exact hf2 i h ((roundStep_seen_mem i (g :: gs) seen).mpr (Or.inl hseen))

theorem mergeAux_complete (fuel : Nat) :
    ∀ (seen : List String) (gens : List (List Candidate)),
      gensMeasure gens ≤ fuel →
      ∀ (x : Candidate) (g : List Candidate), g ∈ gens → x ∈ g →
        x.id ∈ seen ∨ x.id ∈ (mergeAux fuel seen gens).map Candidate.id := by
  induction fuel with
  | zero =>
    intro seen gens hm x g hg _
    have hnil : gens = [] := by
      cases gens with
      | nil => rfl
      | cons a b => simp [gensMeasure] at hm
    subst hnil
    simp at hg
  | succ fuel ih =>
    intro seen gens hm x g hg hx
    cases gens with
    | nil => simp at hg
    | cons g0 gs =>
      simp only [mergeAux, List.map_append]
      rcases roundStep_complete (g0 :: gs) seen x g hg hx with hs | he | ⟨g2, hg2, hxg2⟩
      · exact Or.inl hs
      · exact Or.inr (List.mem_append.mpr (Or.inl he))
      · have hmlt := roundStep_measure_lt g0 gs seen
        have hm2 : gensMeasure (roundStep seen (g0 :: gs)).2.2 ≤ fuel := by
          simp only [gensMeasure] at *
          omega
        rcases ih (roundStep seen (g0 :: gs)).2.1 (roundStep seen (g0 :: gs)).2.2 hm2 x g2 hg2 hxg2 with hs2 | he2
        · rcases (roundStep_seen_mem x.id (g0 :: gs) seen).mp hs2 with h | h
          · exact Or.inl h
          · exact Or.inr (List.mem_append.mpr (Or.inl h))
        · exact Or.inr (List.mem_append.mpr (Or.inr he2))

-- ---------------------------------------------------------------------------
-- C1
-- ---------------------------------------------------------------------------

/-- C1: the round-robin merge takes one not-yet-emitted candidate from each
surviving list per round in collection order, skipping exhausted lists, until
all lists are exhausted: no identifier is ever emitted twice (the output ids
are nodup), every candidate of every collected list is accounted for in the
output (exhaustiveness), the documented example groups A = [1,2,3],
B = [4,5], C = [6] merge to exactly 1,4,6,2,5,3, and the recommend step
returns the first topN of the merged list whenever it is non-empty. -/
theorem roundRobin_spec :
    (∀ gens : List (List Candidate), ((roundRobinMerge gens).map Candidate.id).Nodup)
  ∧ (∀ (gens : List (List Candidate)) (x : Candidate) (g : List Candidate),
      g ∈ gens → x ∈ g → x.id ∈ (roundRobinMerge gens).map Candidate.id)
  ∧ (roundRobinMerge exampleGroups).map Candidate.id = ["1", "4", "6", "2", "5", "3"]
  ∧ (∀ (gens : List (List Candidate)) (topN : Nat), roundRobinMerge gens ≠ [] →
      fuseTopN gens topN = some ((roundRobinMerge gens).take topN))
  ∧ fuseTopN exampleGroups 2 = some [⟨"1", some 1⟩, ⟨"4", some 1⟩] := by
  refine ⟨?_, ?_, by decide, ?_, by decide⟩
  · intro gens
    exact (mergeAux_fresh (gensMeasure gens) [] gens).1
  · intro gens x g hg hx
    rcases mergeAux_complete (gensMeasure gens) [] gens le_rfl x g hg hx with h | h
    · simp at h
    · exact h
  · intro gens topN hne
    simp only [fuseTopN]
    rw [if_neg (fun h => hne (List.isEmpty_iff.mp h))]

/-- Witness for C1: candidate 2 of the first example group appears among the
merged identifiers. -/
theorem roundRobin_spec_witness :
    (Candidate.mk "2" (some 1)).id ∈ (roundRobinMerge exampleGroups).map Candidate.id :=
  roundRobin_spec.2.1 exampleGroups ⟨"2", some 1⟩
    [⟨"1", some 1⟩, ⟨"2", some 1⟩, ⟨"3", some 1⟩] (by decide) (by decide)

-- ---------------------------------------------------------------------------
-- C9
-- ---------------------------------------------------------------------------

/-- C9: predictPrice is deterministic: two calls with identical input against
the same fixed remote service at the same clock produce identical results,
and in particular identical locally constructed feature objects; moreover for
any two valid inputs that construct the same feature object, the full
results coincide, so the outcome depends on the input only through the
feature object. -/
theorem predictPrice_deterministic :
    (∀ (svc : PriceService) (now : Int) (d1 d2 : PropertyData), d1 = d2 →
      buildFeatures d1 now = buildFeatures d2 now ∧
      predictPrice svc now d1 = predictPrice svc now d2)
  ∧ (∀ (svc : PriceService) (now : Int) (d1 d2 : PropertyData),
      validPropertyData d1 → validPropertyData d2 →
      buildFeatures d1 now = buildFeatures d2 now →
      predictPrice svc now d1 = predictPrice svc now d2) := by
  constructor
  · rintro svc now d1 d2 rfl
    exact ⟨rfl, rfl⟩
  · intro svc now d1 d2 hv1 hv2 hfeat
    have hnone : ∀ {β : Type} (o : Option β), o.isSome = true → o.isNone = false := by
      intro β o h
      cases o with
      | none => simp at h
      | some v => rfl
    obtain ⟨ha1, hb1, hc1, ht1⟩ := hv1
    obtain ⟨ha2, hb2, hc2, ht2⟩ := hv2
    simp only [predictPrice, hnone _ ha1, hnone _ hb1, hnone _ hc1, hnone _ ht1,
      hnone _ ha2, hnone _ hb2, hnone _ hc2, hnone _ ht2, Bool.false_eq_true, if_false]
    rw [hfeat]

/-- Witness for C9: the sample valid property against the fixed trained
sample service yields the same features and the same prediction on a repeated
call. -/
theorem predictPrice_deterministic_witness :
    buildFeatures sampleProperty 0 = buildFeatures sampleProperty 0 ∧
    predictPrice sampleService 0 sampleProperty = predictPrice sampleService 0 sampleProperty :=
  predictPrice_deterministic.1 sampleService 0 sampleProperty sampleProperty rfl

end AiRealEstate
